import Mathlib

/-!
Verification of the LogAsync logging library against its specification.

This file shallowly embeds the parts of the LogAsync sources that the
checked claims are about:

* `LogData`, its ordering, and `LoggingFormat::SetLogFormat`
  (ConfigurationHandler.h / ConfigurationHandler.cpp);
* `QueueAndSize`, `ConcurrentQueueWrapper::DequeueSorted` (QueueWrapper.h);
* `LogBase::MeetsLoggingCriteria`, `RotatedLog::RenameExistingLogs`,
  `RotatedLog::OpenLog`, `RotatedLog::HandleRotateAfter`,
  `RotatedLog::SetDiskThresholdPercent` (LogHandler.cpp);
* `LogLevelPosition`, `LogLevelAt`, `Logging::SetLoggingLevel`,
  `Logging::GetCountOf`, `Logging::RegisterCountOf`, `Logging::GetCountOfID`
  (LogAsync.cpp).

Machine integers are modelled as `Nat` / `Int`.  The `uint64_t`
insertion counter is unbounded `Nat`, backed by the documented contract
of the source ("we won't ever log 2^64 logs"); the `uint_fast32_t`
per-source counters roll over, a rollover the repository documents as
observable, so they carry an explicit `% 2 ^ 32` at each increment.  `double` values are
modelled as `Rat`: the only operations performed on them in the modelled
code (assignment, `min`, `max`, comparison) are exact in IEEE arithmetic.
C++ `const char*` keys, which the code compares by pointer identity, are
modelled as `String` values standing for the canonical address of each
literal.  Nondeterministic concurrent interleaving of producers is
modelled by universally quantifying over the list a bulk dequeue returns,
constrained to a sub-permutation of the enqueued records.
-/

/-- `LogData` from ConfigurationHandler.h: one queued log record.
`_timeLogged` is an abstract wall-clock stamp. -/
structure LogData where
  _insertionPoint : Nat
  _timeLogged : Nat
  _codeSrc : String
  _tags : List String
  _logContent : String
deriving DecidableEq

/-- `LogData::operator<` (ConfigurationHandler.cpp, lines 80 to 83):
compare records by `_insertionPoint` only. -/
def LogData.lt (a b : LogData) : Prop :=
  a._insertionPoint < b._insertionPoint

/-- The non-strict order induced by `LogData::operator<`; a comparison
sort driven by `operator<` places its output in this order. -/
def LogData.le (a b : LogData) : Prop :=
  a._insertionPoint ≤ b._insertionPoint

instance : DecidableRel LogData.le :=
  fun a b => inferInstanceAs (Decidable (a._insertionPoint ≤ b._insertionPoint))

instance : IsTotal LogData LogData.le :=
  ⟨fun a b => Nat.le_total a._insertionPoint b._insertionPoint⟩

instance : IsTrans LogData LogData.le :=
  ⟨fun _ _ _ h h2 => Nat.le_trans h h2⟩

/-- `gfx::timsort(toWhere.begin(), toWhere.end())` sorting by
`LogData::operator<`.  timsort is a stable comparison sort; it is modelled
by the stable `List.insertionSort` over the same order. -/
def timsortLogs (l : List LogData) : List LogData :=
  List.insertionSort LogData.le l

/-- `QueueAndSize` from QueueWrapper.h: the per-generation atomic
insertion counter `_insertPos` together with the queue contents.  The
`_writers` guard only fences the drain and has no pure content. -/
structure QueueAndSize where
  _insertPos : Nat
  _queue : List LogData
deriving DecidableEq

/-- `QueueAndSize()` constructor: `_insertPos(0)` and an empty queue. -/
def initQueueAndSize : QueueAndSize := ⟨0, []⟩

/-- `QueueAndSize::AddToQueueOrdered` (QueueWrapper.h, lines 28 to 34):
stamp the record with the current counter value, post-increment the
counter, enqueue the record. -/
def AddToQueueOrdered (q : QueueAndSize) (l : LogData) : QueueAndSize :=
  { _insertPos := q._insertPos + 1
    _queue := q._queue ++ [{ l with _insertionPoint := q._insertPos }] }

/-- A sequence of ordered enqueues into one generation. -/
def enqueueAll (ps : List LogData) (q : QueueAndSize) : QueueAndSize :=
  ps.foldl AddToQueueOrdered q

/-- `ConcurrentQueueWrapper::DequeueSorted` (QueueWrapper.h, lines 74 to
98) acting on the detached generation `q`.  The code computes
`maxSize = _insertPos + 1`, clears the output and returns when
`maxSize <= 1`, and otherwise timsorts whatever `try_dequeue_bulk`
produced; `dequeued` is that bulk-dequeue result. -/
def DequeueSorted (q : QueueAndSize) (dequeued : List LogData) : List LogData :=
  if q._insertPos + 1 ≤ 1 then [] else timsortLogs dequeued

/-- `DequeueSorted` in the quiescent single-consumer case: the `_writers`
spin-wait has passed, so `try_dequeue_bulk` returns every enqueued record
(`maxSize = _insertPos + 1` is never smaller than the queue length). -/
def DequeueSortedFull (q : QueueAndSize) : List LogData :=
  DequeueSorted q q._queue

/-- State of a `LogBase` sink relevant to `MeetsLoggingCriteria`
(LogHandler.cpp): cache switch, filter list, per-source result cache. -/
structure LogBaseState where
  _useCache : Bool
  _inputFilters : List (LogData → Bool)
  _sourceEvalCache : String → Option Bool

/-- `_sourceEvalCache[key] = v` on the unordered map. -/
def cacheInsert (k : String) (v : Bool) (m : String → Option Bool) :
    String → Option Bool :=
  fun x => if x = k then some v else m x

/-- The `for (auto & filter : _inputFilters)` loop inside
`MeetsLoggingCriteria`: return `true` at the first filter that accepts,
`false` when none does. -/
def firstFilterMatch : List (LogData → Bool) → LogData → Bool
  | [], _ => false
  | f :: fs, l => if f l then true else firstFilterMatch fs l

/-- `LogBase::MeetsLoggingCriteria` (LogHandler.cpp, lines 42 to 69):
default-allow on an empty filter list; otherwise consult the per-source
cache, and on a miss run the filters in order, writing the result into
the cache exactly when `_useCache` is set. -/
def MeetsLoggingCriteria (st : LogBaseState) (l : LogData) :
    Bool × LogBaseState :=
  if st._inputFilters.isEmpty then (true, st)
  else
    match st._sourceEvalCache l._codeSrc with
    | some b => (b, st)
    | none =>
      let r := firstFilterMatch st._inputFilters l
      (r, if st._useCache then
            { st with _sourceEvalCache := cacheInsert l._codeSrc r st._sourceEvalCache }
          else st)

/-- The `LOG_LEVELS` array (LogAsync.cpp, lines 31 to 39). -/
def LOG_LEVELS : List String :=
  ["fatal", "error", "warning", "info", "debug", "all"]

/-- `LogLevelPosition` (LogAsync.cpp, lines 53 to 59): index of the level
in `LOG_LEVELS`, defaulting to `LOG_ALL_INT = 5` when not found. -/
def LogLevelPosition (src : String) : Nat :=
  match LOG_LEVELS.findIdx? (fun s => s = src) with
  | none => 5
  | some p => p

/-- `LogLevelAt<level>` (LogAsync.cpp, lines 61 to 69): scan
`i = level, level - 1, ..., 0` and accept when the tag set contains
`LOG_LEVELS[i]`. -/
def LogLevelAt (level : Nat) (s : List String) : Bool :=
  ((List.range (level + 1)).reverse).any (fun i => s.contains (LOG_LEVELS.getD i ""))

/-- `Logging::SetLoggingLevel` (LogAsync.cpp, lines 511 to 548), returning
the predicate it installs into `loggingLevelFilter`: `LogLevelAt<k>` for a
recognized level at position `k ≤ 4`, and `LogEverything` for `all` or an
unrecognized string. -/
def SetLoggingLevel (level : String) : List String → Bool :=
  match LogLevelPosition level with
  | 0 => LogLevelAt 0
  | 1 => LogLevelAt 1
  | 2 => LogLevelAt 2
  | 3 => LogLevelAt 3
  | 4 => LogLevelAt 4
  | _ => fun _ => true

/-- One compiled entry of `LoggingFormat::_parsingSchema`: each emitter is
one of the `std::function` objects pushed by `SetLogFormat`. -/
inductive Emitter
  | lit (s : String)
  | timestamp
  | src
  | srcStripped
  | tags
  | msg
deriving DecidableEq

/-- The `if / else if` chain on `logformat[0]` in `SetLogFormat`
(ConfigurationHandler.cpp, lines 143 to 185): the emitter pushed for the
character following a percent sign; nothing is pushed for an
unrecognized character. -/
def tokenEmitters (c : Char) : List Emitter :=
  if c = 't' then [Emitter.timestamp]
  else if c = 's' then [Emitter.src]
  else if c = 'S' then [Emitter.srcStripped]
  else if c = 'T' then [Emitter.tags]
  else if c = 'm' then [Emitter.msg]
  else if c = '%' then [Emitter.lit "%"]
  else []

/-- `LoggingFormat::SetLogFormat` (ConfigurationHandler.cpp, lines 114 to
191) on the template string, producing the compiled schema.  Each loop
iteration finds the next percent sign, pushes the preceding literal,
dispatches on the following character, and then executes
`logformat = logformat.substr(1)`; `std::string::substr(1)` throws
`std::out_of_range` when the string is empty, which the `Except.error`
branch models. -/
def SetLogFormat (cs : List Char) : Except Unit (List Emitter) :=
  if hcs : cs = [] then Except.ok []
  else
    match cs.findIdx? (fun c => c = '%') with
    | none => Except.ok [Emitter.lit (String.mk cs)]
    | some p =>
      if (cs.drop (p + 1)).isEmpty then Except.error ()
      else
        match SetLogFormat (cs.drop (p + 2)) with
        | Except.error e => Except.error e
        | Except.ok es =>
          Except.ok ((if p = 0 then [] else [Emitter.lit (String.mk (cs.take p))]) ++
            tokenEmitters ((cs.drop (p + 1)).headD (Char.ofNat 0)) ++ es)
termination_by cs.length
decreasing_by
  have hpos : 0 < cs.length := List.length_pos.mpr hcs
  simp only [List.length_drop]
  omega

/-- A template string ends in a dangling percent sign: scanning left to
right, a `%` consumes the following character, and a `%` with no
following character dangles. -/
def danglingPercent : List Char → Bool
  | [] => false
  | [c] => c = '%'
  | c :: c2 :: rest =>
    if c = '%' then danglingPercent rest else danglingPercent (c2 :: rest)

/-- The slice of `RotatedLog` state that `SetDiskThresholdPercent`
touches.  The constructor initializes `_diskThreshold(100.0)`. -/
structure RotatedLogState where
  _diskThreshold : Rat
  _diskIsFull : Bool
deriving DecidableEq

/-- A freshly constructed `RotatedLog` (LogHandler.cpp, lines 112 to 139). -/
def initRotatedLogState : RotatedLogState := ⟨100, false⟩

/-- `RotatedLog::SetDiskThresholdPercent` (LogHandler.cpp, lines 489 to
492): `_diskThreshold = d;`. -/
def SetDiskThresholdPercent (st : RotatedLogState) (d : Rat) : RotatedLogState :=
  { st with _diskThreshold := d }

/-- The clamp `std::min(std::max(percent / 100.0, 0.0), 1.0)` performed by
`Logging::SetDiskSpaceThreshold` (LogAsync.cpp, line 588), for reference
against the spec formula `min(1, max(0, f))`. -/
def sanitizedFraction (f : Rat) : Rat :=
  min (max f 0) 1

/-- The directory the sink writes into: a map from file name to file
contents. -/
def FS : Type := String → Option String

/-- `boost::filesystem::remove`. -/
def fsRemove (name : String) (fs : FS) : FS :=
  fun x => if x = name then none else fs x

/-- `boost::filesystem::rename(src, dst)`: the target is replaced when it
exists (POSIX rename semantics, which boost provides). -/
def fsRename (from_ dst : String) (fs : FS) : FS :=
  fun x => if x = dst then fs from_ else if x = from_ then none else fs x

/-- `_logfile.open(name, std::ios::app)` inside `RotatedLog::OpenLog`
(LogHandler.cpp, lines 215 to 231): append mode creates an empty file
when the name is absent and keeps existing contents otherwise. -/
def openLogAppend (name : String) (fs : FS) : FS :=
  fun x => if x = name then some ((fs name).getD "") else fs x

/-- The loop bounds `for (int i = _numToRotateThrough - 1; i > 0; --i)` in
`RenameExistingLogs`: the indices `n - 1, n - 2, ..., 1`. -/
def rotateIndices (n : Int) : List Int :=
  (List.range (n - 1).toNat).map (fun j => n - 1 - j)

/-- `RotatedLog::RenameExistingLogs` (LogHandler.cpp, lines 146 to 208):
delete `name.(n-1)` when present, shift each existing `name.i` to
`name.(i+1)` for `i = n - 1` down to `1`, then rename the base file to
`name.1` when it exists. -/
def RenameExistingLogs (baseFileName : String) (numToRotateThrough : Int)
    (fs : FS) : FS :=
  let afterDelete :=
    if (fs (baseFileName ++ "." ++ toString (numToRotateThrough - 1))).isSome then
      fsRemove (baseFileName ++ "." ++ toString (numToRotateThrough - 1)) fs
    else fs
  let afterShift :=
    (rotateIndices numToRotateThrough).foldl
      (fun acc i =>
        if (acc (baseFileName ++ "." ++ toString i)).isSome then
          fsRename (baseFileName ++ "." ++ toString i)
            (baseFileName ++ "." ++ toString (i + 1)) acc
        else acc)
      afterDelete
  if (afterShift baseFileName).isSome then
    fsRename baseFileName (baseFileName ++ ".1") afterShift
  else afterShift

/-- The size-triggered branch of `RotatedLog::CheckSizeAndShift`
(LogHandler.cpp, lines 359 to 368): close, cascade-rename, re-open.  In
`ROTATE_WHEN_SIZE` and `ROTATE_AFTER` modes `ConstructLogFileName`
returns the base `_filename`. -/
def sizeRotateCascade (baseFileName : String) (numToRotateThrough : Int)
    (fs : FS) : FS :=
  openLogAppend baseFileName (RenameExistingLogs baseFileName numToRotateThrough fs)

/-- One iteration of `RotatedLog::HandleRotateAfter` (LogHandler.cpp,
lines 321 to 336) whose sleep expired with `_lastRotatedAt` unchanged:
the body runs `OpenLog(ConstructLogFileName())`, and in `ROTATE_AFTER`
mode `ConstructLogFileName` returns the base `_filename`, so the
iteration re-opens the base file in append mode. -/
def HandleRotateAfterIteration (filename : String) (fs : FS) : FS :=
  openLogAppend filename fs

/-- The modulus of the `uint_fast32_t` per-source counters.  The type is
at least 32 bits wide and is exactly 32 bits on MSVC, which this code
targets explicitly; the counter rolls over at the platform width, a
rollover the headers of the repository document as observable behavior.
The model fixes the guaranteed minimum width of 32 bits. -/
def UINT_FAST32_MOD : Nat := 2 ^ 32

/-- The `loggingLineLookup` map
(`unordered_map<const char*, uint_fast32_t>`), or the thread-local
`loggingLineIDLookup` map of `GetCountOfID`. -/
def CounterMap : Type := String → Option Nat

/-- Write one counter value. -/
def counterInsert (k : String) (v : Nat) (m : CounterMap) : CounterMap :=
  fun x => if x = k then some v else m x

/-- `Logging::RegisterCountOf` (LogAsync.cpp, lines 154 to 169): the first
registration stores 1 (priming for later `fetch_add` reads) and returns
0; a lost race lands in the `fetch_add(1)` branch, whose unsigned
increment rolls over at the width of `uint_fast32_t`. -/
def RegisterCountOf (s : String) (m : CounterMap) : Nat × CounterMap :=
  match m s with
  | none => (0, counterInsert s 1 m)
  | some c => (c, counterInsert s ((c + 1) % UINT_FAST32_MOD) m)

/-- `Logging::GetCountOf` (LogAsync.cpp, lines 175 to 185): return the
`fetch_add(1)` result for a known source, delegating the first call to
`RegisterCountOf`; the unsigned increment rolls over at the width of
`uint_fast32_t`. -/
def GetCountOf (s : String) (m : CounterMap) : Nat × CounterMap :=
  match m s with
  | none => RegisterCountOf s m
  | some c => (c, counterInsert s ((c + 1) % UINT_FAST32_MOD) m)

/-- The result and state of the `(n+1)`-st successive `GetCountOf` call
for source `s`, starting from map `m` (calls are numbered from 0). -/
def getCountOfCalls (s : String) (m : CounterMap) : Nat → Nat × CounterMap
  | 0 => GetCountOf s m
  | n + 1 => GetCountOf s (getCountOfCalls s m n).2

/-- `Logging::GetCountOfID` (LogAsync.cpp, lines 193 to 204) acting on the
thread-local `loggingLineIDLookup` map of the calling task: the `id`
parameter appears in the signature but the body keys the map by `src`
alone; the post-increment rolls over at the width of `uint_fast32_t`. -/
def GetCountOfID (id : Nat) (s : String) (m : CounterMap) : Nat × CounterMap :=
  match m s with
  | none => (0, counterInsert s 1 m)
  | some c => (c, counterInsert s ((c + 1) % UINT_FAST32_MOD) m)

/-- A concrete record used by witnesses and counterexamples. -/
def sampleLog : LogData :=
  ⟨0, 0, "Main.cpp : 17", ["info"], "hello"⟩

/-- A second concrete record. -/
def sampleLog2 : LogData :=
  ⟨0, 1, "Main.cpp : 20", ["debug"], "world"⟩

/-- A directory holding only the base log file. -/
def fsBaseOnly : FS :=
  fun x => if x = "name" then some "old contents" else none

/-- A directory holding the base log file and one rotated file. -/
def fsBaseAndOne : FS :=
  fun x =>
    if x = "name" then some "current"
    else if x = "name.1" then some "older" else none

/-! ## Helper lemmas -/

/-- Each enqueue bumps the generation counter once. -/
theorem enqueueAll_insertPos (ps : List LogData) (q : QueueAndSize) :
    (enqueueAll ps q)._insertPos = q._insertPos + ps.length := by
  induction ps generalizing q with
  | nil => simp [enqueueAll]
  | cons p ps ih =>
    have hstep : enqueueAll (p :: ps) q = enqueueAll ps (AddToQueueOrdered q p) := rfl
    rw [hstep, ih]
    simp only [AddToQueueOrdered, List.length_cons]
    omega

/-- The insertion points stamped by a run of ordered enqueues are the
consecutive counter values. -/
theorem enqueueAll_queue_map (ps : List LogData) (q : QueueAndSize) :
    (enqueueAll ps q)._queue.map (fun l => l._insertionPoint) =
      q._queue.map (fun l => l._insertionPoint) ++
        List.range' q._insertPos ps.length := by
  induction ps generalizing q with
  | nil => simp [enqueueAll]
  | cons p ps ih =>
    have hstep : enqueueAll (p :: ps) q = enqueueAll ps (AddToQueueOrdered q p) := rfl
    rw [hstep, ih]
    simp [AddToQueueOrdered, List.range'_succ]

/-- From a fresh generation the stamped insertion points are exactly
`[0, n)`. -/
theorem enqueueAll_init_map (ps : List LogData) :
    (enqueueAll ps initQueueAndSize)._queue.map (fun l => l._insertionPoint) =
      List.range ps.length := by
  rw [List.range_eq_range']
  simpa [initQueueAndSize] using enqueueAll_queue_map ps initQueueAndSize

/-- The in-order filter loop computes the same value as an existential
scan over the filter list. -/
theorem firstFilterMatch_eq_any (fs : List (LogData → Bool)) (l : LogData) :
    firstFilterMatch fs l = fs.any (fun f => f l) := by
  induction fs with
  | nil => rfl
  | cons f fs ih =>
    by_cases h : f l <;> simp [firstFilterMatch, h, ih]

/-! ## Claim C1 -/

/-- Claim C1: every batch produced by an ordered-mode drain
(`DequeueSorted`) of a generation filled by `AddToQueueOrdered` is sorted
in strictly increasing `_insertionPoint` order and contains no duplicate
insertion indices, and when the bulk dequeue returned every record of the
generation the indices are exactly the contiguous range `[0, |B|)`
assigned by the atomic counter of the generation. -/
theorem dequeueSorted_batch_invariant (ps dequeued : List LogData)
    (hd : List.Subperm dequeued (enqueueAll ps initQueueAndSize)._queue) :
    ((DequeueSorted (enqueueAll ps initQueueAndSize) dequeued).map
        (fun l => l._insertionPoint)).Sorted (· < ·) ∧
    ((DequeueSorted (enqueueAll ps initQueueAndSize) dequeued).map
        (fun l => l._insertionPoint)).Nodup ∧
    (List.Perm dequeued (enqueueAll ps initQueueAndSize)._queue →
      (DequeueSorted (enqueueAll ps initQueueAndSize) dequeued).map
          (fun l => l._insertionPoint) =
        List.range (DequeueSorted (enqueueAll ps initQueueAndSize) dequeued).length) := by
  have hpos : (enqueueAll ps initQueueAndSize)._insertPos = ps.length := by
    simpa [initQueueAndSize] using enqueueAll_insertPos ps initQueueAndSize
  have hmap := enqueueAll_init_map ps
  by_cases hn : ps.length = 0
  · have hB : DequeueSorted (enqueueAll ps initQueueAndSize) dequeued = [] := by
      simp [DequeueSorted, hpos, hn]
    rw [hB]
    simp
  · have hB : DequeueSorted (enqueueAll ps initQueueAndSize) dequeued =
        timsortLogs dequeued := by
      simp only [DequeueSorted, hpos]
      rw [if_neg]
      omega
    have hBperm : List.Perm (timsortLogs dequeued) dequeued :=
      List.perm_insertionSort LogData.le dequeued
    have hsortedLe : ((timsortLogs dequeued).map (fun l => l._insertionPoint)).Sorted (· ≤ ·) := by
      exact List.Pairwise.map (fun (l : LogData) => l._insertionPoint)
        (fun a b hab => hab) (List.sorted_insertionSort LogData.le dequeued)
    have hnd : ((timsortLogs dequeued).map (fun l => l._insertionPoint)).Nodup := by
      obtain ⟨u, hu1, hu2⟩ := hd
      have hndu : (u.map (fun l => l._insertionPoint)).Nodup := by
        have hsub : List.Sublist (u.map (fun l => l._insertionPoint))
            ((enqueueAll ps initQueueAndSize)._queue.map (fun l => l._insertionPoint)) :=
          hu2.map (fun l => l._insertionPoint)
        rw [hmap] at hsub
        exact hsub.nodup (List.nodup_range ps.length)
      exact ((hu1.map (fun l => l._insertionPoint)).trans
        ((hBperm.map (fun l => l._insertionPoint)).symm)).nodup hndu
    refine ⟨?_, ?_, ?_⟩
    · rw [hB]
      exact List.Sorted.lt_of_le hsortedLe hnd
    · rw [hB]
      exact hnd
    · intro hall
      rw [hB]
      have hperm : List.Perm ((timsortLogs dequeued).map (fun l => l._insertionPoint))
          (List.range ps.length) := by
        rw [← hmap]
        exact (hBperm.map (fun l => l._insertionPoint)).trans
          (hall.map (fun l => l._insertionPoint))
      have hlen : (timsortLogs dequeued).length = ps.length := by
        have := hperm.length_eq
        simpa using this
      rw [hlen]
      exact List.eq_of_perm_of_sorted hperm hsortedLe (List.sorted_le_range ps.length)

/-- Witness for C1 at a concrete two-record generation drained in the
reversed order the queue could hand back. -/
theorem dequeueSorted_batch_invariant_witness :
    ((DequeueSorted (enqueueAll [sampleLog, sampleLog2] initQueueAndSize)
        [{ sampleLog2 with _insertionPoint := 1 },
         { sampleLog with _insertionPoint := 0 }]).map
        (fun l => l._insertionPoint)).Sorted (· < ·) ∧
    ((DequeueSorted (enqueueAll [sampleLog, sampleLog2] initQueueAndSize)
        [{ sampleLog2 with _insertionPoint := 1 },
         { sampleLog with _insertionPoint := 0 }]).map
        (fun l => l._insertionPoint)).Nodup ∧
    (List.Perm [{ sampleLog2 with _insertionPoint := 1 },
      { sampleLog with _insertionPoint := 0 }]
        (enqueueAll [sampleLog, sampleLog2] initQueueAndSize)._queue →
      (DequeueSorted (enqueueAll [sampleLog, sampleLog2] initQueueAndSize)
          [{ sampleLog2 with _insertionPoint := 1 },
           { sampleLog with _insertionPoint := 0 }]).map
          (fun l => l._insertionPoint) =
        List.range (DequeueSorted (enqueueAll [sampleLog, sampleLog2] initQueueAndSize)
          [{ sampleLog2 with _insertionPoint := 1 },
           { sampleLog with _insertionPoint := 0 }]).length) :=
  dequeueSorted_batch_invariant [sampleLog, sampleLog2]
    [{ sampleLog2 with _insertionPoint := 1 }, { sampleLog with _insertionPoint := 0 }]
    (List.Perm.subperm (by decide))

/-! ## Claim C2 -/

/-- Counterexample to claim C2 as stated: a generation holding exactly one
record has an insertion counter that reads exactly 1, yet the ordered
drain returns the record instead of an empty batch, because the code sets
`maxSize = _insertPos + 1` (QueueWrapper.h, line 80) rather than reading
the counter itself as `max_size`. -/
theorem dequeueSortedFull_one_record_not_empty :
    (enqueueAll [sampleLog] initQueueAndSize)._insertPos = 1 ∧
    DequeueSortedFull (enqueueAll [sampleLog] initQueueAndSize) ≠ [] := by
  decide

/-- Claim C2 (amended): in an ordered drain the consumer computes
`max_size` as the detached insertion counter plus one, so the batch is
empty exactly when the counter read 0; otherwise it bulk-dequeues up to
`max_size` records, which covers every record of the generation, and the
output holds exactly the actual dequeued count.  A generation whose
counter reads exactly 1 yields that one record, not an empty batch. -/
theorem dequeueSortedFull_amended (ps : List LogData) :
    (enqueueAll ps initQueueAndSize)._insertPos = ps.length ∧
    List.Perm (DequeueSortedFull (enqueueAll ps initQueueAndSize))
      (enqueueAll ps initQueueAndSize)._queue ∧
    (DequeueSortedFull (enqueueAll ps initQueueAndSize)).length = ps.length ∧
    (DequeueSortedFull (enqueueAll ps initQueueAndSize) = [] ↔ ps = []) := by
  have hpos : (enqueueAll ps initQueueAndSize)._insertPos = ps.length := by
    simpa [initQueueAndSize] using enqueueAll_insertPos ps initQueueAndSize
  have hqlen : (enqueueAll ps initQueueAndSize)._queue.length = ps.length := by
    have h := congrArg List.length (enqueueAll_init_map ps)
    simpa using h
  by_cases hn : ps = []
  · subst hn
    refine ⟨hpos, ?_, ?_, ?_⟩ <;>
      simp [enqueueAll, initQueueAndSize, DequeueSortedFull, DequeueSorted]
  · have hlen0 : ps.length ≠ 0 := by
      simpa using fun h => hn (List.length_eq_zero.mp h)
    have hB : DequeueSortedFull (enqueueAll ps initQueueAndSize) =
        timsortLogs (enqueueAll ps initQueueAndSize)._queue := by
      simp only [DequeueSortedFull, DequeueSorted, hpos]
      rw [if_neg]
      omega
    have hperm : List.Perm (DequeueSortedFull (enqueueAll ps initQueueAndSize))
        (enqueueAll ps initQueueAndSize)._queue := by
      rw [hB]
      exact List.perm_insertionSort LogData.le _
    have hlen : (DequeueSortedFull (enqueueAll ps initQueueAndSize)).length = ps.length := by
      rw [hperm.length_eq, hqlen]
    refine ⟨hpos, hperm, hlen, ?_⟩
    constructor
    · intro hempty
      rw [hempty] at hlen
      exact absurd hlen.symm hlen0
    · intro hps
      exact absurd hps hn

/-! ## Claim C3 -/

/-- Claim C3: `MeetsLoggingCriteria` default-allows every record when the
filter list is empty; with filters present, a cache miss for the source
of the record evaluates the filters in order, returning whether some
filter accepts, and writes that boolean into the per-source cache exactly
when caching is enabled; a cache hit returns the cached boolean with the
state untouched (no filter is consulted). -/
theorem meetsLoggingCriteria_spec (st : LogBaseState) (l : LogData) :
    (st._inputFilters = [] → MeetsLoggingCriteria st l = (true, st)) ∧
    (st._inputFilters ≠ [] → ∀ b, st._sourceEvalCache l._codeSrc = some b →
      MeetsLoggingCriteria st l = (b, st)) ∧
    (st._inputFilters ≠ [] → st._sourceEvalCache l._codeSrc = none →
      MeetsLoggingCriteria st l =
        (st._inputFilters.any (fun f => f l),
         if st._useCache then
           { st with _sourceEvalCache := (cacheInsert l._codeSrc
              (st._inputFilters.any (fun f => f l)) st._sourceEvalCache) }
         else st)) := by
  refine ⟨?_, ?_, ?_⟩
  · intro hemp
    simp [MeetsLoggingCriteria, hemp]
  · intro hne b hcache
    have hne2 : ¬st._inputFilters.isEmpty := by
      simpa [List.isEmpty_iff] using hne
    simp [MeetsLoggingCriteria, hne2, hcache]
  · intro hne hcache
    have hne2 : ¬st._inputFilters.isEmpty := by
      simpa [List.isEmpty_iff] using hne
    simp [MeetsLoggingCriteria, hne2, hcache, firstFilterMatch_eq_any]

/-- Witness for C3: an empty filter list accepts a concrete record
without touching a concrete state. -/
theorem meetsLoggingCriteria_spec_witness :
    MeetsLoggingCriteria ⟨true, [], fun _ => none⟩ sampleLog =
      (true, ⟨true, [], fun _ => none⟩) :=
  (meetsLoggingCriteria_spec ⟨true, [], fun _ => none⟩ sampleLog).1 rfl

/-! ## Claim C4 -/

/-- The descending scan of `LogLevelAt` accepts exactly when some level
tag at position at most `level` is in the tag set. -/
theorem logLevelAt_iff (level : Nat) (S : List String) :
    LogLevelAt level S = true ↔ ∃ i, i ≤ level ∧ LOG_LEVELS.getD i "" ∈ S := by
  simp [LogLevelAt, List.any_eq_true, Nat.lt_succ_iff]

/-- For a level resolved to a position below 5, `SetLoggingLevel` installs
the corresponding `LogLevelAt` predicate. -/
theorem setLoggingLevel_pos_eq (name : String) (k : Nat) (h5 : k < 5)
    (hk : LogLevelPosition name = k) : SetLoggingLevel name = LogLevelAt k := by
  unfold SetLoggingLevel
  rw [hk]
  interval_cases k <;> rfl

/-- For a level resolved to position 5 (the `all` literal or an unknown
string), `SetLoggingLevel` installs the always-true predicate. -/
theorem setLoggingLevel_all_eq (name : String)
    (hk : LogLevelPosition name = 5) : SetLoggingLevel name = fun _ => true := by
  unfold SetLoggingLevel
  rw [hk]

/-- Claim C4: after `SetLoggingLevel` resolves a known level name to
position `L` below `all`, the installed predicate accepts a tag set `S`
iff `S` contains one of the level tags at positions `0..L` of
`fatal < error < warning < info < debug < all`; in particular the empty
tag set is rejected for every such `L`.  A name resolved to position 5,
which covers both the `all` literal and every unknown level string,
installs a predicate accepting every tag set. -/
theorem setLoggingLevel_spec (name : String) (S : List String) (L : Nat)
    (hL : LogLevelPosition name = L) :
    (L < 5 → (SetLoggingLevel name S = true ↔
      ∃ i, i ≤ L ∧ LOG_LEVELS.getD i "" ∈ S)) ∧
    (S = [] → L < 5 → SetLoggingLevel name S = false) ∧
    (L = 5 → SetLoggingLevel name S = true) := by
  refine ⟨?_, ?_, ?_⟩
  · intro h5
    rw [setLoggingLevel_pos_eq name L h5 hL]
    exact logLevelAt_iff L S
  · intro hS h5
    subst hS
    rw [setLoggingLevel_pos_eq name L h5 hL]
    rcases hb : LogLevelAt L [] with _ | _
    · rfl
    · rcases (logLevelAt_iff L []).mp hb with ⟨i, _, hmem⟩
      exact absurd hmem (List.not_mem_nil _)
  · intro h5
    rw [setLoggingLevel_all_eq name (h5 ▸ hL)]

/-- Witness for C4: level `warning` sits at position 2 and accepts a tag
set containing `error`. -/
theorem setLoggingLevel_spec_witness :
    SetLoggingLevel "warning" ["error"] = true :=
  ((setLoggingLevel_spec "warning" ["error"] 2 (by decide)).1 (by decide)).mpr
    ⟨1, by decide, by decide⟩

/-! ## Claim C5 -/

/-- A percent sign followed by a character whose token is unrecognized is
skipped whole: the compiled schema continues with the remainder and no
emitter is produced for the token. -/
theorem setLogFormat_percent_cons (c : Char) (rest : List Char)
    (hc : tokenEmitters c = []) :
    SetLogFormat ('%' :: c :: rest) = SetLogFormat rest := by
  conv_lhs => rw [SetLogFormat.eq_def]
  simp only [List.findIdx?_cons, List.drop_succ_cons, List.drop_zero]
  cases h : SetLogFormat rest with
  | error e => simp [h, hc]
  | ok es => simp [h, hc]

/-- Compilation success is unchanged by a leading percent sign that has a
following character, whatever emitter that character produces. -/
theorem setLogFormat_percent_cons_isOk (c : Char) (rest : List Char) :
    (SetLogFormat ('%' :: c :: rest)).isOk = (SetLogFormat rest).isOk := by
  conv_lhs => rw [SetLogFormat.eq_def]
  simp only [List.findIdx?_cons, List.drop_succ_cons, List.drop_zero]
  cases h : SetLogFormat rest with
  | error e => simp [h]
  | ok es => simp [h, Except.isOk, Except.toBool]

/-- Compilation success is unchanged by a leading literal character. -/
theorem setLogFormat_cons_isOk (c : Char) (hc : ¬c = '%') (cs : List Char) :
    (SetLogFormat (c :: cs)).isOk = (SetLogFormat cs).isOk := by
  cases h : cs.findIdx? (fun x => x = '%') with
  | none =>
    conv_lhs => rw [SetLogFormat.eq_def]
    conv_rhs => rw [SetLogFormat.eq_def]
    by_cases hcs : cs = [] <;>
      simp [hcs, h, hc, List.findIdx?_cons, Except.isOk, Except.toBool]
  | some p =>
    have hcs : cs ≠ [] := by
      intro hh
      subst hh
      simp at h
    conv_lhs => rw [SetLogFormat.eq_def]
    conv_rhs => rw [SetLogFormat.eq_def]
    cases hrec : SetLogFormat (cs.drop (p + 2)) <;>
      cases hemp : (cs.drop (p + 1)).isEmpty <;>
        simp [h, hc, hcs, hrec, hemp, List.findIdx?_cons, List.drop_succ_cons,
          Except.isOk, Except.toBool]

/-- `SetLogFormat` succeeds exactly on the templates with no dangling
trailing percent sign, by induction on the template length. -/
theorem setLogFormat_isOk_aux : ∀ (n : Nat) (cs : List Char), cs.length ≤ n →
    (SetLogFormat cs).isOk = !danglingPercent cs := by
  intro n
  induction n with
  | zero =>
    intro cs hlen
    have hnil : cs = [] := List.length_eq_zero.mp (Nat.le_zero.mp hlen)
    subst hnil
    simp [SetLogFormat, danglingPercent, Except.isOk, Except.toBool]
  | succ n ih =>
    intro cs hlen
    match cs with
    | [] => simp [SetLogFormat, danglingPercent, Except.isOk, Except.toBool]
    | [c] =>
      by_cases hc : c = '%'
      · subst hc
        simp [SetLogFormat, danglingPercent, Except.isOk, Except.toBool]
      · simp [SetLogFormat, danglingPercent, hc, List.findIdx?_cons, Except.isOk,
          Except.toBool]
    | c :: c2 :: rest =>
      by_cases hc : c = '%'
      · subst hc
        rw [setLogFormat_percent_cons_isOk]
        have hd : danglingPercent ('%' :: c2 :: rest) = danglingPercent rest := by
          simp [danglingPercent]
        rw [hd]
        refine ih rest ?_
        simp only [List.length_cons] at hlen
        omega
      · rw [setLogFormat_cons_isOk c hc (c2 :: rest)]
        have hd : danglingPercent (c :: c2 :: rest) = danglingPercent (c2 :: rest) := by
          simp [danglingPercent, hc]
        rw [hd]
        refine ih (c2 :: rest) ?_
        simp only [List.length_cons] at hlen ⊢
        omega

/-- Counterexample to claim C5 as stated: the template consisting of a
single percent sign does not compile; `SetLogFormat` reaches
`logformat.substr(1)` on an empty string, which throws
`std::out_of_range`.  The claim asserts every template compiles without
failing, including a percent sign as the final character. -/
theorem setLogFormat_trailing_percent_fails :
    SetLogFormat ['%'] = Except.error () := by
  simp [SetLogFormat]

/-- Claim C5 (amended): `SetLogFormat` compiles exactly the templates in
which no percent sign dangles at the end of the remaining input; on those
templates a percent sign followed by an unrecognized character produces
no emitter and is silently omitted from the compiled schema, while a
dangling trailing percent sign makes `SetLogFormat` throw
`std::out_of_range` from `substr` instead of compiling. -/
theorem setLogFormat_amended :
    (∀ cs, (SetLogFormat cs).isOk = !danglingPercent cs) ∧
    (∀ c rest, tokenEmitters c = [] →
      SetLogFormat ('%' :: c :: rest) = SetLogFormat rest) := by
  constructor
  · intro cs
    exact setLogFormat_isOk_aux cs.length cs (Nat.le_refl _)
  · intro c rest hc
    exact setLogFormat_percent_cons c rest hc

/-- Witness for C5 (amended): the unrecognized token `%x` is dropped and
compilation continues with the remainder of the template. -/
theorem setLogFormat_amended_witness :
    SetLogFormat ['%', 'x', 'a'] = SetLogFormat ['a'] :=
  setLogFormat_amended.2 'x' ['a'] (by decide)

/-! ## Claim C6 -/

/-- Counterexample to claim C6 as stated: calling
`SetDiskThresholdPercent` with 2 stores 2 in the sink, while the claimed
clamp `min(1, max(0, f))` would give 1; the sink setter performs no
clamping (the clamp in the spec formula is computed only by
`Logging::SetDiskSpaceThreshold`, and that clamped value is not what the
sink stores). -/
theorem setDiskThresholdPercent_no_clamp :
    (SetDiskThresholdPercent initRotatedLogState 2)._diskThreshold = 2 ∧
    sanitizedFraction 2 = 1 ∧
    (SetDiskThresholdPercent initRotatedLogState 2)._diskThreshold ≠
      sanitizedFraction 2 := by
  decide

/-- Claim C6 (amended): for every input `f`,
`RotatedLog::SetDiskThresholdPercent` stores `f` itself, unchanged: no
clamping into `[0, 1]` happens in the sink. -/
theorem setDiskThresholdPercent_amended (st : RotatedLogState) (f : Rat) :
    (SetDiskThresholdPercent st f)._diskThreshold = f :=
  rfl

/-! ## Claim C7 -/

/-- Evaluation of claim C7 at its failing input: a sink configured with
`keep_n = 1` whose directory holds only the base file.  Rotation deletes
the nonexistent `name.0`, runs an empty shift loop, renames `name` to
`name.1`, and re-opens an empty `name`: afterwards `name.1` exists and
holds the previous contents, although the claim (and the intent of
keeping at most `keep_n` log files) says only `name` exists and the old
contents are discarded. -/
theorem renameExistingLogs_keepOne_eval :
    sizeRotateCascade "name" 1 fsBaseOnly "name.1" = some "old contents" ∧
    sizeRotateCascade "name" 1 fsBaseOnly "name" = some "" := by
  decide

/-! ## Claim C8 -/

/-- Counterexample to claim C8: one interval-monitor iteration
(`HandleRotateAfter` with `last_rotated` unchanged) leaves every file
untouched except for re-opening the base file in append mode, while the
cascade rename of size rotation (shown beside it with `keep_n = 3`) would
shift `name` into `name.1` and `name.1` into `name.2`.  The monitor does
not perform the cascade. -/
theorem handleRotateAfter_no_cascade :
    HandleRotateAfterIteration "name" fsBaseAndOne "name" = some "current" ∧
    HandleRotateAfterIteration "name" fsBaseAndOne "name.1" = some "older" ∧
    HandleRotateAfterIteration "name" fsBaseAndOne "name.2" = none ∧
    sizeRotateCascade "name" 3 fsBaseAndOne "name" = some "" ∧
    sizeRotateCascade "name" 3 fsBaseAndOne "name.1" = some "current" ∧
    sizeRotateCascade "name" 3 fsBaseAndOne "name.2" = some "older" := by
  decide

/-- Claim C8 (amended): an interval-monitor iteration whose sleep expires
with `last_rotated` unchanged only runs `OpenLog(ConstructLogFileName())`,
which in `ROTATE_AFTER` mode re-opens the base file in append mode:
no file other than the base file changes and no cascade rename happens
(the cascade for interval rotation runs only inside `CheckSizeAndShift`
during `HandleQueue`). -/
theorem handleRotateAfter_amended (filename : String) (fs : FS) :
    HandleRotateAfterIteration filename fs filename =
      some ((fs filename).getD "") ∧
    (∀ x, x ≠ filename → HandleRotateAfterIteration filename fs x = fs x) := by
  constructor
  · simp [HandleRotateAfterIteration, openLogAppend]
  · intro x hx
    simp [HandleRotateAfterIteration, openLogAppend, hx]

/-- Witness for C8 (amended): the monitor iteration leaves the rotated
file `name.1` untouched. -/
theorem handleRotateAfter_amended_witness :
    HandleRotateAfterIteration "name" fsBaseAndOne "name.1" =
      fsBaseAndOne "name.1" :=
  (handleRotateAfter_amended "name" fsBaseAndOne).2 "name.1" (by decide)

/-! ## Claim C9 -/

/-- Starting from a map with no entry for source `s`, the `n`-th
successive `GetCountOf` call (numbered from 0) returns `n` reduced by the
`uint_fast32_t` modulus, and leaves the counter at `n + 1` reduced the
same way. -/
theorem getCountOfCalls_mod (s : String) (m : CounterMap) (h : m s = none) :
    ∀ n, (getCountOfCalls s m n).1 = n % UINT_FAST32_MOD ∧
      (getCountOfCalls s m n).2 s = some ((n + 1) % UINT_FAST32_MOD) := by
  intro n
  induction n with
  | zero =>
    have h1 : (1 : Nat) % UINT_FAST32_MOD = 1 := by
      rw [Nat.mod_eq_of_lt]
      norm_num [UINT_FAST32_MOD]
    simp [getCountOfCalls, GetCountOf, RegisterCountOf, h, counterInsert, h1]
  | succ n ih =>
    obtain ⟨h1, h2⟩ := ih
    simp [getCountOfCalls, GetCountOf, h2, counterInsert, Nat.mod_add_mod]

/-- Counterexample to claim C9 as stated: at the rollover of the
`uint_fast32_t` counter the returned sequence is not `0, 1, 2, ...`; the
call numbered `2 ^ 32 - 1` returns `2 ^ 32 - 1` but the next call
returns 0, not `2 ^ 32`, so that call does not return one more than the
previous one. -/
theorem getCountOf_wrap_rollover :
    (getCountOfCalls "Main.cpp : 17" (fun _ => none) (2 ^ 32 - 1)).1 =
      2 ^ 32 - 1 ∧
    (getCountOfCalls "Main.cpp : 17" (fun _ => none) (2 ^ 32)).1 = 0 ∧
    (getCountOfCalls "Main.cpp : 17" (fun _ => none) (2 ^ 32)).1 ≠ 2 ^ 32 := by
  have hm := getCountOfCalls_mod "Main.cpp : 17" (fun _ => none) rfl
  refine ⟨?_, ?_, ?_⟩
  · rw [(hm (2 ^ 32 - 1)).1, Nat.mod_eq_of_lt]
    norm_num [UINT_FAST32_MOD]
  · rw [(hm (2 ^ 32)).1]
    norm_num [UINT_FAST32_MOD]
  · rw [(hm (2 ^ 32)).1]
    norm_num [UINT_FAST32_MOD]

/-- Claim C9 (amended): starting from a map with no entry for source `s`,
the `n`-th successive `GetCountOf` call (numbered from 0) returns
`n % 2 ^ 32` and leaves the per-source counter at `(n + 1) % 2 ^ 32`: the
first call returns 0 and primes the counter at 1, and every later call
returns the `fetch_add(1)` result, one more than the previous call until
the `uint_fast32_t` counter rolls over, where the returned count drops
back to 0 (a rollover the repository documents as observable). -/
theorem getCountOf_sequence (s : String) (m : CounterMap) (h : m s = none) :
    ∀ n, (getCountOfCalls s m n).1 = n % UINT_FAST32_MOD ∧
      (getCountOfCalls s m n).2 s = some ((n + 1) % UINT_FAST32_MOD) ∧
      (n < UINT_FAST32_MOD → (getCountOfCalls s m n).1 = n) := by
  intro n
  refine ⟨(getCountOfCalls_mod s m h n).1, (getCountOfCalls_mod s m h n).2, ?_⟩
  intro hlt
  rw [(getCountOfCalls_mod s m h n).1, Nat.mod_eq_of_lt hlt]

/-- Witness for C9 (amended): the third call for a fresh source returns
2, below the rollover. -/
theorem getCountOf_sequence_witness :
    (getCountOfCalls "Main.cpp : 17" (fun _ => none) 2).1 = 2 :=
  (getCountOf_sequence "Main.cpp : 17" (fun _ => none) rfl 2).2.2
    (by decide)

/-! ## Claim C10 -/

/-- Claim C10: `GetCountOfID` does not depend on its `id` argument; for
any two ids and any source, calls from the same thread-local state return
the same value and produce the same state, because the map is keyed by
source alone. -/
theorem getCountOfID_ignores_id (id1 id2 : Nat) (s : String) (m : CounterMap) :
    GetCountOfID id1 s m = GetCountOfID id2 s m :=
  rfl
